import Mathlib

/-!
Shallow embedding of the streaming response processor of
`gpt_term/main.py` (`ChatGPT.process_stream_response`, together with its
helper `format_citations`), and proofs of the specification claims about
it.

Python strings are modelled as Lean `String`; JSON optional fields as
`Option`; Python truthiness of a string/list is explicit emptiness
testing.  The SSE event sequence is a `List RawEvent`; a malformed
(non-JSON) frame is an event of its own, since in the source
`json.loads` raises and the surrounding `except Exception` handler
aborts the whole loop.  The write-only diagnostic variable
`final_chunk` of the source is omitted from the state.
-/

namespace GptTerm

/-- One entry of `delta["thinking_blocks"]`. -/
structure ThinkingBlock where
  type? : Option String := none
  thinking? : Option String := none
  deriving Repr, DecidableEq

/-- The object `delta["provider_specific_fields"]["reasoningContent"]`. -/
structure ReasoningContentField where
  text? : Option String := none
  deriving Repr, DecidableEq

/-- The object `delta["provider_specific_fields"]`. -/
structure ProviderSpecificFields where
  reasoningContent? : Option ReasoningContentField := none
  deriving Repr, DecidableEq

/-- The object `part["choices"][0]["delta"]`; absent keys are `none`. -/
structure Delta where
  reasoning_content? : Option String := none
  thinking_blocks? : Option (List ThinkingBlock) := none
  provider_specific_fields? : Option ProviderSpecificFields := none
  content? : Option String := none
  deriving Repr, DecidableEq

/-- One element of `part["choices"]`. -/
structure Choice where
  delta? : Option Delta := none
  deriving Repr, DecidableEq

/-- A decoded JSON stream chunk (`part` in the source). -/
structure Chunk where
  citations? : Option (List String) := none
  choices? : Option (List Choice) := none
  deriving Repr, DecidableEq

/-- One event of the SSE stream, as seen by the processing loop:
the `[DONE]` sentinel, a frame whose payload is not valid JSON
(`json.loads` raises on it), or a decoded chunk. -/
inductive RawEvent where
  | done
  | malformed
  | chunk (c : Chunk)
  deriving Repr, DecidableEq

/-- Python truthiness of an optional string: present and non-empty. -/
def optTruthy : Option String → Bool
  | some s => !(s == "")
  | none => false

/-- Python truthiness of an optional list: present and non-empty. -/
def optListTruthy {α : Type} : Option (List α) → Bool
  | some l => !l.isEmpty
  | none => false

/-- The `for block in delta["thinking_blocks"]` loop of the source:
the first block with `block.get("type") == "thinking"` and a
`"thinking"` key yields its `thinking` field. -/
def findThinkingBlock : List ThinkingBlock → Option String
  | [] => none
  | b :: bs =>
    if b.type? = some "thinking" ∧ b.thinking?.isSome then b.thinking?
    else findThinkingBlock bs

/-- Guard `"provider_specific_fields" in delta and "reasoningContent" in
delta["provider_specific_fields"]`. -/
def providerHasReasoning : Option ProviderSpecificFields → Bool
  | some p => p.reasoningContent?.isSome
  | none => false

/-- `delta["provider_specific_fields"]["reasoningContent"]["text"]` when
present. -/
def providerText : Option ProviderSpecificFields → Option String
  | some p =>
    match p.reasoningContent? with
    | some rc => rc.text?
    | none => none
  | none => none

/-- The reasoning-extraction `if`/`elif` chain of the source
(lines 213-228): direct `reasoning_content` when truthy, else the
`thinking_blocks` search when that list is present and non-empty, else
the `provider_specific_fields` path. -/
def extractReasoning (d : Delta) : Option String :=
  if optTruthy d.reasoning_content? then d.reasoning_content?
  else if optListTruthy d.thinking_blocks? then
    findThinkingBlock (d.thinking_blocks?.getD [])
  else if providerHasReasoning d.provider_specific_fields? then
    providerText d.provider_specific_fields?
  else none

/-- `pat` occurs as a contiguous sublist of `s` (Python `pat in s` on
strings). -/
def listContainsSub (pat : List Char) : List Char → Bool
  | [] => pat.isPrefixOf []
  | c :: rest => pat.isPrefixOf (c :: rest) || listContainsSub pat rest

/-- `"sonar-reasoning-pro" in self.model or "deepseek-r1" in self.model`. -/
def hasReasonModelMarker (model : String) : Bool :=
  listContainsSub "sonar-reasoning-pro".data model.data ||
  listContainsSub "deepseek-r1".data model.data

/-- Fuel-indexed worker for Python `str.replace`: replaces
non-overlapping occurrences of `pat` left to right.  The fuel is only a
termination device; `s.length` fuel is always enough. -/
def replaceGo (pat rep : List Char) : Nat → List Char → List Char
  | _, [] => []
  | 0, s => s
  | fuel + 1, c :: rest =>
    if pat.isPrefixOf (c :: rest) then
      rep ++ replaceGo pat rep fuel (rest.drop (pat.length - 1))
    else c :: replaceGo pat rep fuel rest

/-- Python `s.replace(pat, rep)`. -/
def pyReplace (s pat rep : String) : String :=
  ⟨replaceGo pat.data rep.data s.data.length s.data⟩

/-- Lines 253-256 of the source: for models whose name contains a
reasoning marker, rewrite inline think tags in a content fragment. -/
def rewriteThinkTags (model : String) (content : String) : String :=
  if hasReasonModelMarker model then
    pyReplace (pyReplace content "<think>" "> Thought Process:\n```thinking\n")
      "</think>" "\n```\n\n> AI Response:  \n\n"
  else content

/-- The mutable accumulator of `process_stream_response`. -/
structure AssemblyState where
  reply : String := ""
  citations : Option (List String) := none
  thinking_content : String := ""
  is_thinking_mode : Bool := false
  is_thinking_complete : Bool := false
  deriving Repr, DecidableEq

/-- The state at stream start (lines 187-193). -/
def initState : AssemblyState := {}

/-- Guard `"choices" in part and len(part["choices"]) > 0 and "delta" in
part["choices"][0]`, returning the delta when it passes. -/
def chunkDelta (c : Chunk) : Option Delta :=
  match c.choices? with
  | some (ch :: _) => ch.delta?
  | _ => none

/-- Lines 206-207 of the source: `if 'citations' in part: citations =
part['citations']`. -/
def applyCitations (st : AssemblyState) : Option (List String) → AssemblyState
  | some l => { st with citations := some l }
  | none => st

/-- Lines 233-235 of the source: on the first reasoning chunk, print
the opening thinking tag into the thinking buffer. -/
def openThinking (st1 : AssemblyState) : AssemblyState :=
  if !st1.is_thinking_mode then
    { st1 with is_thinking_mode := true,
               thinking_content := "> Thought Process:\n```thinking\n" }
  else st1

/-- Lines 231-237 of the source: when reasoning content was found and
the thinking section is not complete, open it if needed and append the
fragment. -/
def appendReasoning (st1 : AssemblyState) (rc : Option String) : AssemblyState :=
  if optTruthy rc && !st1.is_thinking_complete then
    let st' := openThinking st1
    { st' with thinking_content := st'.thinking_content ++ rc.getD "" }
  else st1

/-- Lines 260-265 of the source: close the thinking section on the first
content fragment, flushing the closed block and the response separator
into the reply. -/
def closeThinking (st2 : AssemblyState) : AssemblyState :=
  if st2.is_thinking_mode && !st2.is_thinking_complete then
    { st2 with is_thinking_mode := false,
               thinking_content := st2.thinking_content ++ "\n```\n\n",
               is_thinking_complete := true,
               reply := st2.reply ++ (st2.thinking_content ++ "\n```\n\n")
                          ++ "\n> AI Response:  \n\n" }
  else st2

/-- Lines 247-266 of the source: when a (truthy) content fragment is
present, rewrite think tags for marker models, close the thinking
section if needed, and append the fragment to the reply. -/
def appendContent (model : String) (st2 : AssemblyState) (c? : Option String) :
    AssemblyState :=
  if optTruthy c? then
    let content := rewriteThinkTags model (c?.getD "")
    let st3 := closeThinking st2
    { st3 with reply := st3.reply ++ content }
  else st2

/-- Lines 210-276 of the source: the delta-handling block of one loop
iteration. -/
def applyDelta (model : String) (st1 : AssemblyState) : Option Delta → AssemblyState
  | none => st1
  | some delta =>
    appendContent model (appendReasoning st1 (extractReasoning delta)) delta.content?

/-- One iteration of the event loop body (lines 206-276) on a decoded
chunk: store citations, then handle the delta. -/
def processChunk (model : String) (st : AssemblyState) (c : Chunk) :
    AssemblyState :=
  applyDelta model (applyCitations st c.citations?) (chunkDelta c)

/-- The event loop (lines 198-278): `[DONE]` breaks; a malformed frame
raises, which the `except` handlers turn into an abort that keeps the
state accumulated so far; a chunk is processed and the loop continues. -/
def processEvents (model : String) : AssemblyState → List RawEvent → AssemblyState
  | st, [] => st
  | st, RawEvent.done :: _ => st
  | st, RawEvent.malformed :: _ => st
  | st, RawEvent.chunk c :: rest => processEvents model (processChunk model st c) rest

/-- The returned message dictionary. -/
structure Message where
  role : String
  content : String
  deriving Repr, DecidableEq

/-- The `finally` block (lines 286-289): the returned message carries
exactly the accumulated `reply`. -/
def finalize (st : AssemblyState) : Message :=
  { role := "assistant", content := st.reply }

/-- Whole-stream behaviour of `process_stream_response` on a decoded
event sequence. -/
def process_stream_response (model : String) (events : List RawEvent) : Message :=
  finalize (processEvents model initState events)

/-- `format_citations` (lines 763-769). -/
def format_citations (citations : List String) : String :=
  if citations.isEmpty then ""
  else
    (List.enumFrom 1 citations).foldl
      (fun acc p => acc ++ "[" ++ toString p.1 ++ "] " ++ p.2 ++ "  \n")
      "\n\n> Citations:  \n\n"

/-- The rendered snapshot of lines 270-276: the reply so far, plus the
formatted citation block when a (truthy) citation list is stored. -/
def renderSnapshot (st : AssemblyState) : String :=
  match st.citations with
  | some cs => if !cs.isEmpty then st.reply ++ format_citations cs else st.reply
  | none => st.reply

/-! Claim-side descriptions of events: a chunk carrying one reasoning
fragment, one content fragment, both, or a citation list. -/

/-- An event whose delta carries a single reasoning fragment. -/
def reasoningChunk (r : String) : Chunk :=
  { choices? := some [{ delta? := some { reasoning_content? := some r } }] }

/-- An event whose delta carries a single content fragment. -/
def contentChunk (c : String) : Chunk :=
  { choices? := some [{ delta? := some { content? := some c } }] }

/-- An event whose delta carries a reasoning fragment and a content
fragment at once. -/
def bothChunk (r c : String) : Chunk :=
  { choices? := some [{ delta? := some { reasoning_content? := some r,
                                         content? := some c } }] }

/-- An event carrying only a top-level citation list. -/
def citationsChunk (l : List String) : Chunk :=
  { citations? := some l }

/-- Plain concatenation of fragment texts in order. -/
def strJoin : List String → String
  | [] => ""
  | s :: rest => s ++ strJoin rest

/-- Number of positions of `s` at which `pat` occurs as a contiguous
substring. -/
def countOcc (pat : List Char) : List Char → Nat
  | [] => 0
  | c :: rest => (if pat.isPrefixOf (c :: rest) then 1 else 0) + countOcc pat rest

/-- Substring-occurrence count on strings. -/
def countOccStr (pat s : String) : Nat := countOcc pat.data s.data

/-- Remove the top-level citation list from an event, leaving the rest
of the event unchanged. -/
def stripCitations : RawEvent → RawEvent
  | RawEvent.chunk c => RawEvent.chunk { c with citations? := none }
  | e => e

/-- The first of the listed optional values that is present and
non-empty. -/
def firstNonEmptyVal : List (Option String) → Option String
  | [] => none
  | v :: vs =>
    match v with
    | some s => if s = "" then firstNonEmptyVal vs else some s
    | none => firstNonEmptyVal vs

/-- The `thinking` field of the first entry of a thinking-block list
whose type tag is "thinking", as the claim words the second path. -/
def claimBlocksPath : List ThinkingBlock → Option String
  | [] => none
  | b :: bs => if b.type? = some "thinking" then b.thinking? else claimBlocksPath bs

/-- The extraction discipline exactly as claim C5 words it: check the
three paths in priority order and use the first that yields a non-empty
value. -/
def extractReasoningClaim (d : Delta) : Option String :=
  firstNonEmptyVal
    [d.reasoning_content?,
     claimBlocksPath (d.thinking_blocks?.getD []),
     providerText d.provider_specific_fields?]

/-- The amended extraction discipline: the direct field is used when
non-empty; otherwise, when `thinking_blocks` is present and non-empty
the extractor commits to the block search (the provider path is not
consulted, even when the search yields nothing); otherwise the provider
path is consulted. -/
def extractReasoningAmended (d : Delta) : Option String :=
  match d.reasoning_content? with
  | some s =>
    if s = "" then
      match d.thinking_blocks? with
      | some (b :: bs) => findThinkingBlock (b :: bs)
      | _ =>
        if providerHasReasoning d.provider_specific_fields? then
          providerText d.provider_specific_fields?
        else none
    else some s
  | none =>
    match d.thinking_blocks? with
    | some (b :: bs) => findThinkingBlock (b :: bs)
    | _ =>
      if providerHasReasoning d.provider_specific_fields? then
        providerText d.provider_specific_fields?
      else none

/-! Basic helper lemmas. -/

theorem stringExt {a b : String} (h : a.data = b.data) : a = b := by
  cases a; cases b; exact congrArg String.mk h

theorem optTruthy_some {r : String} (hr : r ≠ "") : optTruthy (some r) = true := by
  have : (r == "") = false := beq_eq_false_iff_ne.mpr hr
  simp [optTruthy, this]

theorem optTruthy_none : optTruthy none = false := rfl

theorem optTruthy_empty : optTruthy (some "") = false := rfl

theorem extractReasoning_contentOnly (c? : Option String) :
    extractReasoning { content? := c? } = none := rfl

theorem extractReasoning_direct {r : String} (hr : r ≠ "") (c? : Option String) :
    extractReasoning { reasoning_content? := some r, content? := c? } = some r := by
  simp [extractReasoning, optTruthy_some hr]

/-- The delta-handling block never touches the citation field. -/
theorem openThinking_citations (s : AssemblyState) :
    (openThinking s).citations = s.citations := by
  by_cases h : s.is_thinking_mode <;> simp [openThinking, h]

theorem appendReasoning_citations (s : AssemblyState) (rc : Option String) :
    (appendReasoning s rc).citations = s.citations := by
  by_cases h : (optTruthy rc && !s.is_thinking_complete) = true <;>
    simp [appendReasoning, h, openThinking_citations]

theorem closeThinking_citations (s : AssemblyState) :
    (closeThinking s).citations = s.citations := by
  by_cases h : (s.is_thinking_mode && !s.is_thinking_complete) = true <;>
    simp [closeThinking, h]

theorem appendContent_citations (model : String) (s : AssemblyState)
    (c? : Option String) :
    (appendContent model s c?).citations = s.citations := by
  by_cases h : optTruthy c? = true <;>
    simp [appendContent, h, closeThinking_citations]

theorem applyDelta_citations (model : String) (s : AssemblyState) (d? : Option Delta) :
    (applyDelta model s d?).citations = s.citations := by
  cases d? with
  | none => rfl
  | some delta =>
    simp only [applyDelta]
    rw [appendContent_citations, appendReasoning_citations]

/-- The delta-handling block commutes with overwriting the citation
field: it neither reads nor writes it. -/
theorem openThinking_citations_swap (s : AssemblyState) (x : Option (List String)) :
    openThinking { s with citations := x } = { openThinking s with citations := x } := by
  by_cases h : s.is_thinking_mode <;> simp [openThinking, h]

theorem appendReasoning_citations_swap (s : AssemblyState) (x : Option (List String))
    (rc : Option String) :
    appendReasoning { s with citations := x } rc =
      { appendReasoning s rc with citations := x } := by
  by_cases h : (optTruthy rc && !s.is_thinking_complete) = true <;>
    simp [appendReasoning, h, openThinking_citations_swap]

theorem closeThinking_citations_swap (s : AssemblyState) (x : Option (List String)) :
    closeThinking { s with citations := x } = { closeThinking s with citations := x } := by
  by_cases h : (s.is_thinking_mode && !s.is_thinking_complete) = true <;>
    simp [closeThinking, h]

theorem appendContent_citations_swap (model : String) (s : AssemblyState)
    (x : Option (List String)) (c? : Option String) :
    appendContent model { s with citations := x } c? =
      { appendContent model s c? with citations := x } := by
  by_cases h : optTruthy c? = true <;>
    simp [appendContent, h, closeThinking_citations_swap]

theorem applyDelta_citations_swap (model : String) (s : AssemblyState)
    (x : Option (List String)) (d? : Option Delta) :
    applyDelta model { s with citations := x } d? =
      { applyDelta model s d? with citations := x } := by
  cases d? with
  | none => rfl
  | some delta =>
    simp only [applyDelta]
    rw [appendReasoning_citations_swap, appendContent_citations_swap]

/-- Processing a chunk with a reasoning fragment from a state where the
thinking section is not yet open: the header marker is written and the
fragment appended. -/
theorem processChunk_reasoning_open (model : String) (st : AssemblyState)
    {r : String} (hr : r ≠ "")
    (hco : st.is_thinking_complete = false) (hmo : st.is_thinking_mode = false) :
    processChunk model st (reasoningChunk r) =
      { st with is_thinking_mode := true,
                thinking_content := "> Thought Process:\n```thinking\n" ++ r } := by
  simp [processChunk, reasoningChunk, chunkDelta, applyCitations, applyDelta,
        appendContent, appendReasoning, openThinking, optTruthy_none,
        extractReasoning_direct hr, optTruthy_some hr, hco, hmo]

/-- Processing a chunk with a reasoning fragment while the thinking
section is open: the fragment is appended to the thinking buffer. -/
theorem processChunk_reasoning_cont (model : String) (st : AssemblyState)
    {r : String} (hr : r ≠ "")
    (hco : st.is_thinking_complete = false) (hmo : st.is_thinking_mode = true) :
    processChunk model st (reasoningChunk r) =
      { st with thinking_content := st.thinking_content ++ r } := by
  simp [processChunk, reasoningChunk, chunkDelta, applyCitations, applyDelta,
        appendContent, appendReasoning, openThinking, optTruthy_none,
        extractReasoning_direct hr, optTruthy_some hr, hco, hmo]

/-- A reasoning fragment arriving after the thinking section is complete
is dropped: the state does not change. -/
theorem processChunk_reasoning_late (model : String) (st : AssemblyState)
    (r : String) (hco : st.is_thinking_complete = true) :
    processChunk model st (reasoningChunk r) = st := by
  simp [processChunk, reasoningChunk, chunkDelta, applyCitations, applyDelta,
        appendContent, appendReasoning, openThinking, optTruthy_none, hco]

/-- Processing a content fragment when the closing guard is off: plain
append to the reply. -/
theorem processChunk_content_plain (model : String) (st : AssemblyState)
    (c : String) (hm : hasReasonModelMarker model = false)
    (hmo : st.is_thinking_mode = false) :
    processChunk model st (contentChunk c) = { st with reply := st.reply ++ c } := by
  by_cases hc : c = ""
  · subst hc
    simp [processChunk, contentChunk, chunkDelta, applyCitations, applyDelta,
          appendContent, appendReasoning, closeThinking, optTruthy_none,
          optTruthy_empty, extractReasoning_contentOnly, String.append_empty]
  · simp [processChunk, contentChunk, chunkDelta, applyCitations, applyDelta,
          appendContent, appendReasoning, closeThinking, optTruthy_none,
          extractReasoning_contentOnly, optTruthy_some hc, hmo,
          rewriteThinkTags, hm]

/-- Processing the first (non-empty) content fragment while the thinking
section is open: the thinking buffer is closed with the footer, flushed
into the reply together with the response separator, and the fragment is
appended. -/
theorem processChunk_content_close (model : String) (st : AssemblyState)
    {c : String} (hc : c ≠ "") (hm : hasReasonModelMarker model = false)
    (hmo : st.is_thinking_mode = true) (hco : st.is_thinking_complete = false) :
    processChunk model st (contentChunk c) =
      { st with is_thinking_mode := false,
                is_thinking_complete := true,
                thinking_content := st.thinking_content ++ "\n```\n\n",
                reply := st.reply ++ (st.thinking_content ++ "\n```\n\n")
                           ++ "\n> AI Response:  \n\n" ++ c } := by
  simp [processChunk, contentChunk, chunkDelta, applyCitations, applyDelta,
        appendContent, appendReasoning, closeThinking, optTruthy_none,
        extractReasoning_contentOnly, optTruthy_some hc, hmo, hco,
        rewriteThinkTags, hm, String.append_assoc]

/-- Processing an event that carries only a citation list: the stored
list is replaced, nothing else changes. -/
theorem processChunk_citations (model : String) (st : AssemblyState) (l : List String) :
    processChunk model st (citationsChunk l) = { st with citations := some l } := rfl

/-- The stream event carrying one reasoning fragment. -/
def reasoningEvent (r : String) : RawEvent := RawEvent.chunk (reasoningChunk r)

/-- The stream event carrying one content fragment. -/
def contentEvent (c : String) : RawEvent := RawEvent.chunk (contentChunk c)

/-- A run of (non-empty) reasoning fragments while the thinking section
is open appends their concatenation to the thinking buffer. -/
theorem run_reasoning (model : String) (rs : List String) :
    ∀ (st : AssemblyState) (rest : List RawEvent),
      (∀ r ∈ rs, r ≠ "") → st.is_thinking_complete = false →
      st.is_thinking_mode = true →
      processEvents model st (rs.map reasoningEvent ++ rest) =
        processEvents model
          { st with thinking_content := st.thinking_content ++ strJoin rs } rest := by
  induction rs with
  | nil =>
    intro st rest _ _ _
    simp [strJoin, String.append_empty]
  | cons r rs ih =>
    intro st rest hne hco hmo
    have hr : r ≠ "" := hne r (by simp)
    simp only [List.map_cons, List.cons_append]
    show processEvents model (processChunk model st (reasoningChunk r))
        (rs.map reasoningEvent ++ rest) = _
    rw [processChunk_reasoning_cont model st hr hco hmo]
    refine (ih _ rest (fun x hx => hne x (by simp [hx])) ?_ ?_).trans ?_
    · exact hco
    · exact hmo
    · simp [strJoin, String.append_assoc]

/-- A run of content fragments while the closing guard is off appends
their concatenation to the reply. -/
theorem run_content (model : String) (hm : hasReasonModelMarker model = false)
    (cs : List String) :
    ∀ (st : AssemblyState) (rest : List RawEvent), st.is_thinking_mode = false →
      processEvents model st (cs.map contentEvent ++ rest) =
        processEvents model { st with reply := st.reply ++ strJoin cs } rest := by
  induction cs with
  | nil =>
    intro st rest _
    simp [strJoin, String.append_empty]
  | cons c cs ih =>
    intro st rest hmo
    simp only [List.map_cons, List.cons_append]
    show processEvents model (processChunk model st (contentChunk c))
        (cs.map contentEvent ++ rest) = _
    rw [processChunk_content_plain model st c hm hmo]
    refine (ih _ rest ?_).trans ?_
    · exact hmo
    · simp [strJoin, String.append_assoc]

/-- The final state assembled from a structured stream of one or more
reasoning fragments followed by one or more content fragments. -/
theorem assembled_structured (model : String) (hm : hasReasonModelMarker model = false)
    (r0 c0 : String) (rs cs : List String)
    (hr0 : r0 ≠ "") (hc0 : c0 ≠ "") (hrs : ∀ r ∈ rs, r ≠ "") :
    processEvents model initState
        ((r0 :: rs).map reasoningEvent ++ (c0 :: cs).map contentEvent
          ++ [RawEvent.done]) =
      { reply := "> Thought Process:\n```thinking\n" ++ strJoin (r0 :: rs)
                   ++ "\n```\n\n" ++ "\n> AI Response:  \n\n" ++ strJoin (c0 :: cs),
        citations := none,
        thinking_content := "> Thought Process:\n```thinking\n" ++ strJoin (r0 :: rs)
                              ++ "\n```\n\n",
        is_thinking_mode := false,
        is_thinking_complete := true } := by
  simp only [List.map_cons, List.cons_append, List.append_assoc]
  show processEvents model (processChunk model initState (reasoningChunk r0))
      (rs.map reasoningEvent
        ++ (contentEvent c0 :: (cs.map contentEvent ++ [RawEvent.done]))) = _
  rw [processChunk_reasoning_open model initState hr0 rfl rfl]
  refine (run_reasoning model rs
      (⟨"", none, "> Thought Process:\n```thinking\n" ++ r0, true, false⟩ : AssemblyState)
      (contentEvent c0 :: (cs.map contentEvent ++ [RawEvent.done])) hrs rfl rfl).trans ?_
  show processEvents model
      (processChunk model
        (⟨"", none, ("> Thought Process:\n```thinking\n" ++ r0) ++ strJoin rs,
          true, false⟩ : AssemblyState)
        (contentChunk c0))
      (cs.map contentEvent ++ [RawEvent.done]) = _
  rw [processChunk_content_close model
      (⟨"", none, ("> Thought Process:\n```thinking\n" ++ r0) ++ strJoin rs,
        true, false⟩ : AssemblyState) hc0 hm rfl rfl]
  refine (run_content model hm cs
      (⟨"" ++ ((("> Thought Process:\n```thinking\n" ++ r0) ++ strJoin rs)
                ++ "\n```\n\n") ++ "\n> AI Response:  \n\n" ++ c0,
        none,
        (("> Thought Process:\n```thinking\n" ++ r0) ++ strJoin rs) ++ "\n```\n\n",
        false, true⟩ : AssemblyState)
      [RawEvent.done] rfl).trans ?_
  show (⟨("" ++ ((("> Thought Process:\n```thinking\n" ++ r0) ++ strJoin rs)
                ++ "\n```\n\n") ++ "\n> AI Response:  \n\n" ++ c0) ++ strJoin cs,
        none,
        (("> Thought Process:\n```thinking\n" ++ r0) ++ strJoin rs) ++ "\n```\n\n",
        false, true⟩ : AssemblyState) = _
  simp [strJoin, String.empty_append, String.append_assoc]

/-! Substring-occurrence counting machinery. -/

theorem isPrefixOf_append_self (l t : List Char) : l.isPrefixOf (l ++ t) = true := by
  induction l with
  | nil => simp [List.isPrefixOf]
  | cons c l ih => simp [List.isPrefixOf, ih]

theorem countOcc_cons_pos {pat : List Char} {c : Char} {t : List Char}
    (h : pat.isPrefixOf (c :: t) = true) :
    countOcc pat (c :: t) = 1 + countOcc pat t := by
  simp [countOcc, h]

theorem countOcc_cons_neg {pat : List Char} {c : Char} {t : List Char}
    (h : pat.isPrefixOf (c :: t) = false) :
    countOcc pat (c :: t) = countOcc pat t := by
  simp [countOcc, h]

/-- An occurrence of `pat` begins with `pat`'s first character, so a
segment free of that character contributes no occurrence. -/
theorem countOcc_skip (pat : List Char) (k : Char) (hk : pat.head? = some k)
    (seg : List Char) (hseg : ∀ c ∈ seg, c ≠ k) (t : List Char) :
    countOcc pat (seg ++ t) = countOcc pat t := by
  cases pat with
  | nil => simp at hk
  | cons k' p' =>
    have hkk : k' = k := by simpa using hk
    subst hkk
    induction seg with
    | nil => rfl
    | cons c seg ih =>
      have hck : c ≠ k' := hseg c (by simp)
      have hpre : (k' :: p').isPrefixOf (c :: (seg ++ t)) = false := by
        simp [List.isPrefixOf, beq_eq_false_iff_ne.mpr (Ne.symm hck)]
      simp only [List.cons_append]
      rw [countOcc_cons_neg hpre]
      exact ih (fun x hx => hseg x (by simp [hx]))

theorem countOcc_zero (pat : List Char) (k : Char) (hk : pat.head? = some k)
    (s : List Char) (hs : ∀ c ∈ s, c ≠ k) :
    countOcc pat s = 0 := by
  have h := countOcc_skip pat k hk s hs []
  simpa using h

/-- One occurrence at the current position, then scanning continues one
character further. -/
theorem countOcc_match_here (pat rest : List Char) (hne : pat ≠ []) :
    countOcc pat (pat ++ rest) = 1 + countOcc pat (pat.tail ++ rest) := by
  cases pat with
  | nil => exact absurd rfl hne
  | cons k p' =>
    simp only [List.cons_append]
    have h : (k :: p').isPrefixOf (k :: (p' ++ rest)) = true := by
      simp [List.isPrefixOf, isPrefixOf_append_self]
    rw [countOcc_cons_pos h]
    rfl

/-- There is a mismatch between `pat` and `s` strictly inside `s`:
no extension of `s` can have `pat` as a prefix at this position. -/
def mismatchStrict : List Char → List Char → Bool
  | [], _ => false
  | _ :: _, [] => false
  | p :: ps, c :: cs => if p == c then mismatchStrict ps cs else true

theorem isPrefixOf_false_of_mismatchStrict {pat s : List Char}
    (h : mismatchStrict pat s = true) (t : List Char) :
    pat.isPrefixOf (s ++ t) = false := by
  induction pat generalizing s with
  | nil => simp [mismatchStrict] at h
  | cons p ps ih =>
    cases s with
    | nil => simp [mismatchStrict] at h
    | cons c cs =>
      by_cases hpc : (p == c) = true
      · have h' : mismatchStrict ps cs = true := by
          simpa [mismatchStrict, hpc] using h
        simp [List.isPrefixOf, List.cons_append, hpc, ih h']
      · simp [List.isPrefixOf, List.cons_append, hpc]

/-- Every start position inside `seg` has a strict mismatch with `pat`. -/
def allStartsMismatch (pat : List Char) : List Char → Bool
  | [] => true
  | c :: rest => mismatchStrict pat (c :: rest) && allStartsMismatch pat rest

/-- A segment in which every start position strictly mismatches the
pattern contributes no occurrence, whatever follows it. -/
theorem countOcc_skip_mismatch (pat seg : List Char)
    (h : allStartsMismatch pat seg = true) (t : List Char) :
    countOcc pat (seg ++ t) = countOcc pat t := by
  induction seg with
  | nil => rw [List.nil_append]
  | cons c cs ih =>
    have h12 : mismatchStrict pat (c :: cs) = true ∧ allStartsMismatch pat cs = true := by
      simpa [allStartsMismatch, Bool.and_eq_true] using h
    have hpre := isPrefixOf_false_of_mismatchStrict h12.1 t
    rw [List.cons_append] at hpre
    rw [List.cons_append, countOcc_cons_neg hpre]
    exact ih h12.2

/-- In the assembled reply of a structured stream whose fragments avoid
the marker character `>`, the thinking header marker occurs exactly
once. -/
theorem countOcc_header_once (R C : List Char)
    (hR : ∀ c ∈ R, c ≠ '>') (hC : ∀ c ∈ C, c ≠ '>') :
    countOcc ("> Thought Process:\n```thinking\n" : String).data
      (("> Thought Process:\n```thinking\n" : String).data
        ++ (R ++ (("\n```\n\n" : String).data
          ++ (("\n> AI Response:  \n\n" : String).data ++ C)))) = 1 := by
  rw [countOcc_match_here _ _ (by decide)]
  rw [show ("> Thought Process:\n```thinking\n" : String).data.tail
      = (" Thought Process:\n```thinking\n" : String).data from rfl]
  rw [countOcc_skip_mismatch ("> Thought Process:\n```thinking\n" : String).data
      (" Thought Process:\n```thinking\n" : String).data (by decide)]
  rw [countOcc_skip ("> Thought Process:\n```thinking\n" : String).data '>' rfl
      R hR]
  rw [countOcc_skip_mismatch ("> Thought Process:\n```thinking\n" : String).data
      ("\n```\n\n" : String).data (by decide)]
  rw [countOcc_skip_mismatch ("> Thought Process:\n```thinking\n" : String).data
      ("\n> AI Response:  \n\n" : String).data (by decide)]
  rw [countOcc_zero ("> Thought Process:\n```thinking\n" : String).data '>' rfl
      C hC]

/-- In the assembled reply of a structured stream whose non-empty
fragments avoid newline and backtick, the thinking footer followed by
the response separator occurs exactly once. -/
theorem countOcc_footer_once (R C : List Char)
    (hR : ∀ c ∈ R, c ≠ '\n' ∧ c ≠ '`') (hC : ∀ c ∈ C, c ≠ '\n' ∧ c ≠ '`')
    (hRne : R ≠ []) (hCne : C ≠ []) :
    countOcc (("\n```\n\n" : String).data ++ ("\n> AI Response:  \n\n" : String).data)
      (("> Thought Process:\n```thinking\n" : String).data
        ++ (R ++ (("\n```\n\n" : String).data
          ++ (("\n> AI Response:  \n\n" : String).data ++ C)))) = 1 := by
  rw [show ("> Thought Process:\n```thinking\n" : String).data
        ++ (R ++ (("\n```\n\n" : String).data
          ++ (("\n> AI Response:  \n\n" : String).data ++ C)))
      = ("> Thought Process:\n```thinking" : String).data
        ++ ('\n' :: (R ++ (("\n```\n\n" : String).data
          ++ (("\n> AI Response:  \n\n" : String).data ++ C)))) from rfl]
  rw [countOcc_skip_mismatch
      (("\n```\n\n" : String).data ++ ("\n> AI Response:  \n\n" : String).data)
      ("> Thought Process:\n```thinking" : String).data (by decide)]
  cases R with
  | nil => exact absurd rfl hRne
  | cons r R' =>
    have hb1 : (("\n```\n\n" : String).data
        ++ ("\n> AI Response:  \n\n" : String).data).isPrefixOf
        ('\n' :: ((r :: R') ++ (("\n```\n\n" : String).data
          ++ (("\n> AI Response:  \n\n" : String).data ++ C)))) = false := by
      have hr : r ≠ '`' := (hR r (by simp)).2
      simp [show ("\n```\n\n" : String).data ++ ("\n> AI Response:  \n\n" : String).data
          = '\n' :: '`' :: ("``\n\n\n> AI Response:  \n\n" : String).data from rfl,
        List.isPrefixOf, List.cons_append,
        beq_eq_false_iff_ne.mpr (Ne.symm hr)]
    rw [countOcc_cons_neg hb1]
    rw [countOcc_skip
        (("\n```\n\n" : String).data ++ ("\n> AI Response:  \n\n" : String).data)
        '\n' rfl (r :: R') (fun c hc => (hR c hc).1)]
    rw [show ("\n```\n\n" : String).data
        ++ (("\n> AI Response:  \n\n" : String).data ++ C)
        = (("\n```\n\n" : String).data ++ ("\n> AI Response:  \n\n" : String).data)
          ++ C from (List.append_assoc _ _ _).symm]
    rw [countOcc_match_here _ _ (by decide)]
    rw [show (("\n```\n\n" : String).data
          ++ ("\n> AI Response:  \n\n" : String).data).tail ++ C
        = ("```\n\n\n> AI Response:  " : String).data ++ ('\n' :: ('\n' :: C))
        from rfl]
    rw [countOcc_skip_mismatch
        (("\n```\n\n" : String).data ++ ("\n> AI Response:  \n\n" : String).data)
        ("```\n\n\n> AI Response:  " : String).data (by decide)]
    have hb3 : (("\n```\n\n" : String).data
        ++ ("\n> AI Response:  \n\n" : String).data).isPrefixOf
        ('\n' :: ('\n' :: C)) = false := by
      simp [show ("\n```\n\n" : String).data ++ ("\n> AI Response:  \n\n" : String).data
          = '\n' :: '`' :: ("``\n\n\n> AI Response:  \n\n" : String).data from rfl,
        List.isPrefixOf]
    rw [countOcc_cons_neg hb3]
    cases C with
    | nil => exact absurd rfl hCne
    | cons e C' =>
      have hb4 : (("\n```\n\n" : String).data
          ++ ("\n> AI Response:  \n\n" : String).data).isPrefixOf
          ('\n' :: (e :: C')) = false := by
        have he : e ≠ '`' := (hC e (by simp)).2
        simp [show ("\n```\n\n" : String).data ++ ("\n> AI Response:  \n\n" : String).data
            = '\n' :: '`' :: ("``\n\n\n> AI Response:  \n\n" : String).data from rfl,
          List.isPrefixOf, beq_eq_false_iff_ne.mpr (Ne.symm he)]
      rw [countOcc_cons_neg hb4]
      rw [countOcc_zero
          (("\n```\n\n" : String).data ++ ("\n> AI Response:  \n\n" : String).data)
          '\n' rfl (e :: C') (fun c hc => (hC c hc).1)]

/-! Lemmas about Python `str.replace` as used by the think-tag rewrite. -/

theorem replaceGo_nil (pat rep : List Char) (f : Nat) : replaceGo pat rep f [] = [] := by
  cases f <;> rfl

theorem replaceGo_cons_eq (pat rep : List Char) (c : Char) (t : List Char) (f : Nat) :
    replaceGo pat rep (f + 1) (c :: t)
      = if pat.isPrefixOf (c :: t) then
          rep ++ replaceGo pat rep f (t.drop (pat.length - 1))
        else c :: replaceGo pat rep f t := rfl

theorem replaceGo_cons_match {pat : List Char} {c : Char} {t : List Char}
    (h : pat.isPrefixOf (c :: t) = true) (rep : List Char) (f : Nat) :
    replaceGo pat rep (f + 1) (c :: t)
      = rep ++ replaceGo pat rep f (t.drop (pat.length - 1)) := by
  rw [replaceGo_cons_eq, h]
  simp

theorem replaceGo_cons_skip {pat : List Char} {c : Char} {t : List Char}
    (h : pat.isPrefixOf (c :: t) = false) (rep : List Char) (f : Nat) :
    replaceGo pat rep (f + 1) (c :: t) = c :: replaceGo pat rep f t := by
  rw [replaceGo_cons_eq, h]
  simp

theorem replaceGo_noOcc {pat : List Char} {s : List Char}
    (h : countOcc pat s = 0) (rep : List Char) : ∀ f, replaceGo pat rep f s = s := by
  induction s with
  | nil => intro f; exact replaceGo_nil pat rep f
  | cons c rest ih =>
    intro f
    cases f with
    | zero => rfl
    | succ f =>
      cases hb : pat.isPrefixOf (c :: rest) with
      | true =>
        rw [countOcc_cons_pos hb] at h
        exact absurd h (by omega)
      | false =>
        have hrest : countOcc pat rest = 0 := by
          rwa [countOcc_cons_neg hb] at h
        rw [replaceGo_cons_skip hb, ih hrest]

theorem replaceGo_fuel (pat rep : List Char) :
    ∀ f1 s f2, s.length ≤ f1 → s.length ≤ f2 →
      replaceGo pat rep f1 s = replaceGo pat rep f2 s := by
  intro f1
  induction f1 with
  | zero =>
    intro s f2 h1 _
    have hs : s = [] := List.eq_nil_of_length_eq_zero (Nat.le_zero.mp h1)
    subst hs
    rw [replaceGo_nil, replaceGo_nil]
  | succ f1 ih =>
    intro s f2 h1 h2
    cases s with
    | nil => rw [replaceGo_nil, replaceGo_nil]
    | cons c rest =>
      cases f2 with
      | zero => simp at h2
      | succ f2 =>
        simp only [List.length_cons] at h1 h2
        cases hb : pat.isPrefixOf (c :: rest) with
        | true =>
          rw [replaceGo_cons_match hb rep f1, replaceGo_cons_match hb rep f2]
          rw [ih _ f2 (by rw [List.length_drop]; omega) (by rw [List.length_drop]; omega)]
        | false =>
          rw [replaceGo_cons_skip hb rep f1, replaceGo_cons_skip hb rep f2]
          rw [ih rest f2 (by omega) (by omega)]

/-- The single-splice behaviour of `replace`: with a prefix free of the
pattern's first character, the first occurrence is replaced and scanning
continues after it. -/
theorem replaceGo_splice (k : Char) (p' rep : List Char) :
    ∀ (a : List Char), (∀ c ∈ a, c ≠ k) → ∀ (b : List Char) (f : Nat),
      (a ++ ((k :: p') ++ b)).length ≤ f →
      replaceGo (k :: p') rep f (a ++ ((k :: p') ++ b))
        = a ++ (rep ++ replaceGo (k :: p') rep b.length b) := by
  intro a
  induction a with
  | nil =>
    intro _ b f hf
    simp only [List.nil_append] at hf ⊢
    cases f with
    | zero => simp [List.length_append, List.length_cons] at hf
    | succ f =>
      rw [show (k :: p') ++ b = k :: (p' ++ b) from rfl]
      have hpre : (k :: p').isPrefixOf (k :: (p' ++ b)) = true := by
        simp [List.isPrefixOf, isPrefixOf_append_self]
      rw [replaceGo_cons_match hpre rep f]
      rw [show ((p' ++ b).drop ((k :: p').length - 1)) = b from by
        simp only [List.length_cons, Nat.add_sub_cancel]
        exact List.drop_left p' b]
      have hlen : b.length ≤ f := by
        simp only [List.length_cons, List.length_append] at hf
        omega
      rw [replaceGo_fuel (k :: p') rep f b b.length hlen (Nat.le_refl _)]
  | cons c a ih =>
    intro ha b f hf
    have hck : c ≠ k := ha c (by simp)
    cases f with
    | zero => simp [List.length_cons] at hf
    | succ f =>
      rw [show (c :: a) ++ ((k :: p') ++ b) = c :: (a ++ ((k :: p') ++ b)) from rfl]
      have hpre : (k :: p').isPrefixOf (c :: (a ++ ((k :: p') ++ b))) = false := by
        simp [List.isPrefixOf, beq_eq_false_iff_ne.mpr (Ne.symm hck)]
      rw [replaceGo_cons_skip hpre rep f]
      have hf2 : (a ++ ((k :: p') ++ b)).length ≤ f := by
        simp only [List.cons_append, List.length_cons, List.length_append] at hf
        simp only [List.length_append, List.length_cons]
        omega
      rw [ih (fun x hx => ha x (by simp [hx])) b f hf2]
      rw [List.cons_append]

/-- The open tag does not occur in a `<`-free fragment followed by the
close tag. -/
theorem countOcc_thinkTag_zero (b : List Char) (hb : ∀ c ∈ b, c ≠ '<') :
    countOcc ('<' :: ("think>" : String).data)
      (b ++ ("</think>" : String).data) = 0 := by
  rw [countOcc_skip ('<' :: ("think>" : String).data) '<' rfl b hb]
  rw [show ("</think>" : String).data = '<' :: ("/think>" : String).data from rfl]
  have h1 : ('<' :: ("think>" : String).data).isPrefixOf
      ('<' :: ("/think>" : String).data) = false := by
    simp [show ("think>" : String).data = 't' :: ("hink>" : String).data from rfl,
      show ("/think>" : String).data = '/' :: ("think>" : String).data from rfl,
      List.isPrefixOf]
  rw [countOcc_cons_neg h1]
  rw [countOcc_zero ('<' :: ("think>" : String).data) '<' rfl
      ("/think>" : String).data (by decide)]

/-- First replacement of the tag rewrite: the open tag becomes the
thinking header. -/
theorem pyReplace_open (b : String) (hb : ∀ c ∈ b.data, c ≠ '<') :
    pyReplace ("<think>" ++ b ++ "</think>") "<think>"
      "> Thought Process:\n```thinking\n"
      = "> Thought Process:\n```thinking\n" ++ (b ++ "</think>") := by
  apply stringExt
  show replaceGo ("<think>" : String).data
      ("> Thought Process:\n```thinking\n" : String).data
      ("<think>" ++ b ++ "</think>" : String).data.length
      ("<think>" ++ b ++ "</think>" : String).data = _
  rw [show ("<think>" ++ b ++ "</think>" : String).data
      = ("<think>" : String).data ++ (b.data ++ ("</think>" : String).data) from by
    rw [String.data_append, String.data_append, List.append_assoc]]
  rw [show ("<think>" : String).data = '<' :: ("think>" : String).data from rfl]
  have hsp := replaceGo_splice '<' ("think>" : String).data
    ("> Thought Process:\n```thinking\n" : String).data [] (by simp)
    (b.data ++ ("</think>" : String).data)
    (('<' :: ("think>" : String).data)
      ++ (b.data ++ ("</think>" : String).data)).length (Nat.le_refl _)
  simp only [List.nil_append] at hsp
  rw [hsp]
  rw [replaceGo_noOcc (countOcc_thinkTag_zero b.data hb)
      ("> Thought Process:\n```thinking\n" : String).data]
  rw [String.data_append, String.data_append]

/-- Second replacement of the tag rewrite: the close tag becomes the
footer plus the response text, with a single newline between them. -/
theorem pyReplace_close (b : String) (hb : ∀ c ∈ b.data, c ≠ '<') :
    pyReplace ("> Thought Process:\n```thinking\n" ++ (b ++ "</think>"))
      "</think>" "\n```\n\n> AI Response:  \n\n"
      = "> Thought Process:\n```thinking\n"
          ++ (b ++ "\n```\n\n> AI Response:  \n\n") := by
  apply stringExt
  show replaceGo ("</think>" : String).data
      ("\n```\n\n> AI Response:  \n\n" : String).data
      ("> Thought Process:\n```thinking\n" ++ (b ++ "</think>") : String).data.length
      ("> Thought Process:\n```thinking\n" ++ (b ++ "</think>") : String).data = _
  rw [show ("> Thought Process:\n```thinking\n" ++ (b ++ "</think>") : String).data
      = (("> Thought Process:\n```thinking\n" : String).data ++ b.data)
        ++ (("</think>" : String).data ++ []) from by
    rw [String.data_append, String.data_append, List.append_nil, List.append_assoc]]
  rw [show ("</think>" : String).data = '<' :: ("/think>" : String).data from rfl]
  have hsp := replaceGo_splice '<' ("/think>" : String).data
    ("\n```\n\n> AI Response:  \n\n" : String).data
    (("> Thought Process:\n```thinking\n" : String).data ++ b.data)
    (by
      intro x hx
      rcases List.mem_append.mp hx with h | h
      · have hH : ∀ c ∈ ("> Thought Process:\n```thinking\n" : String).data, c ≠ '<' := by
          decide
        exact hH x h
      · exact hb x h)
    []
    ((("> Thought Process:\n```thinking\n" : String).data ++ b.data)
      ++ (('<' :: ("/think>" : String).data) ++ [])).length (Nat.le_refl _)
  rw [hsp]
  rw [show replaceGo ('<' :: ("/think>" : String).data)
      ("\n```\n\n> AI Response:  \n\n" : String).data ([] : List Char).length []
      = [] from rfl]
  rw [List.append_nil]
  rw [String.data_append, String.data_append, List.append_assoc]

/-- For a marker model, the inline think tags around a tag-free fragment
are rewritten into the header and the footer-plus-response text. -/
theorem rewriteThinkTags_marker (model : String)
    (hm : hasReasonModelMarker model = true)
    (b : String) (hb : ∀ c ∈ b.data, c ≠ '<') :
    rewriteThinkTags model ("<think>" ++ b ++ "</think>")
      = "> Thought Process:\n```thinking\n"
          ++ (b ++ "\n```\n\n> AI Response:  \n\n") := by
  unfold rewriteThinkTags
  rw [if_pos hm]
  rw [pyReplace_open b hb, pyReplace_close b hb]

/-- For a model without the marker, content fragments pass through the
rewrite unchanged. -/
theorem rewriteThinkTags_plain (model : String)
    (hm : hasReasonModelMarker model = false) (s : String) :
    rewriteThinkTags model s = s := by
  unfold rewriteThinkTags
  rw [if_neg (by simp [hm])]

/-! Frame lemmas: the reply buffer only ever grows by appending. -/

theorem applyCitations_reply (st : AssemblyState) (x : Option (List String)) :
    (applyCitations st x).reply = st.reply := by
  cases x <;> rfl

theorem openThinking_reply (s : AssemblyState) : (openThinking s).reply = s.reply := by
  by_cases h : s.is_thinking_mode <;> simp [openThinking, h]

theorem appendReasoning_reply (s : AssemblyState) (rc : Option String) :
    (appendReasoning s rc).reply = s.reply := by
  by_cases h : (optTruthy rc && !s.is_thinking_complete) = true <;>
    simp [appendReasoning, h, openThinking_reply]

theorem closeThinking_reply_extend (s : AssemblyState) :
    ∃ t, (closeThinking s).reply = s.reply ++ t := by
  by_cases h : (s.is_thinking_mode && !s.is_thinking_complete) = true
  · refine ⟨(s.thinking_content ++ "\n```\n\n") ++ "\n> AI Response:  \n\n", ?_⟩
    simp [closeThinking, h, String.append_assoc]
  · exact ⟨"", by simp [closeThinking, h, String.append_empty]⟩

theorem appendContent_reply_extend (model : String) (s : AssemblyState)
    (c? : Option String) :
    ∃ t, (appendContent model s c?).reply = s.reply ++ t := by
  by_cases h : optTruthy c? = true
  · obtain ⟨t, ht⟩ := closeThinking_reply_extend s
    refine ⟨t ++ rewriteThinkTags model (c?.getD ""), ?_⟩
    simp [appendContent, h, ht, String.append_assoc]
  · exact ⟨"", by simp [appendContent, h, String.append_empty]⟩

theorem processChunk_reply_extend (model : String) (st : AssemblyState) (c : Chunk) :
    ∃ t, (processChunk model st c).reply = st.reply ++ t := by
  unfold processChunk
  cases hd : chunkDelta c with
  | none =>
    exact ⟨"", by simp [applyDelta, applyCitations_reply, String.append_empty]⟩
  | some delta =>
    simp only [applyDelta]
    obtain ⟨t, ht⟩ := appendContent_reply_extend model
      (appendReasoning (applyCitations st c.citations?) (extractReasoning delta))
      delta.content?
    exact ⟨t, by rw [ht, appendReasoning_reply, applyCitations_reply]⟩

theorem processEvents_reply_extend (model : String) :
    ∀ (evs : List RawEvent) (st : AssemblyState),
      ∃ t, (processEvents model st evs).reply = st.reply ++ t := by
  intro evs
  induction evs with
  | nil => intro st; exact ⟨"", by simp [processEvents, String.append_empty]⟩
  | cons e evs ih =>
    intro st
    cases e with
    | done => exact ⟨"", by simp [processEvents, String.append_empty]⟩
    | malformed => exact ⟨"", by simp [processEvents, String.append_empty]⟩
    | chunk c =>
      obtain ⟨t1, h1⟩ := processChunk_reply_extend model st c
      obtain ⟨t2, h2⟩ := ih (processChunk model st c)
      refine ⟨t1 ++ t2, ?_⟩
      show (processEvents model (processChunk model st c) evs).reply = _
      rw [h2, h1, String.append_assoc]

/-! Frame lemmas: once the thinking section is complete it never
changes. -/

theorem appendReasoning_of_complete {s : AssemblyState}
    (h : s.is_thinking_complete = true) (rc : Option String) :
    appendReasoning s rc = s := by
  simp [appendReasoning, h]

theorem closeThinking_of_complete {s : AssemblyState}
    (h : s.is_thinking_complete = true) :
    closeThinking s = s := by
  simp [closeThinking, h]

theorem appendContent_of_complete (model : String) {s : AssemblyState}
    (h : s.is_thinking_complete = true) (c? : Option String) :
    (appendContent model s c?).thinking_content = s.thinking_content ∧
    (appendContent model s c?).is_thinking_complete = true := by
  by_cases hg : optTruthy c? = true
  · simp [appendContent, hg, closeThinking_of_complete h, h]
  · simp [appendContent, hg, h]

theorem processChunk_frozen (model : String) (st : AssemblyState) (c : Chunk)
    (h : st.is_thinking_complete = true) :
    (processChunk model st c).thinking_content = st.thinking_content ∧
    (processChunk model st c).is_thinking_complete = true := by
  unfold processChunk
  have hst1c : (applyCitations st c.citations?).is_thinking_complete = true := by
    cases hcit : c.citations? <;> simp [applyCitations, h]
  have hst1t : (applyCitations st c.citations?).thinking_content = st.thinking_content := by
    cases hcit : c.citations? <;> simp [applyCitations]
  cases hd : chunkDelta c with
  | none => exact ⟨hst1t, hst1c⟩
  | some delta =>
    simp only [applyDelta]
    rw [appendReasoning_of_complete hst1c]
    have hc := appendContent_of_complete model hst1c delta.content?
    exact ⟨hc.1.trans hst1t, hc.2⟩

theorem processEvents_frozen (model : String) :
    ∀ (evs : List RawEvent) (st : AssemblyState), st.is_thinking_complete = true →
      (processEvents model st evs).thinking_content = st.thinking_content ∧
      (processEvents model st evs).is_thinking_complete = true := by
  intro evs
  induction evs with
  | nil => intro st h; exact ⟨rfl, h⟩
  | cons e evs ih =>
    intro st h
    cases e with
    | done => exact ⟨rfl, h⟩
    | malformed => exact ⟨rfl, h⟩
    | chunk c =>
      have hc := processChunk_frozen model st c h
      have he := ih (processChunk model st c) hc.2
      exact ⟨he.1.trans hc.1, he.2⟩

/-! Frame lemmas: citations are invisible to the assembled text. -/

/-- Two states that agree on everything except the stored citation
list. -/
def sameText (s1 s2 : AssemblyState) : Prop :=
  s1.reply = s2.reply ∧ s1.thinking_content = s2.thinking_content ∧
  s1.is_thinking_mode = s2.is_thinking_mode ∧
  s1.is_thinking_complete = s2.is_thinking_complete

theorem sameText_refl (s : AssemblyState) : sameText s s := ⟨rfl, rfl, rfl, rfl⟩

theorem sameText_eq_update {s1 s2 : AssemblyState} (h : sameText s1 s2) :
    s1 = { s2 with citations := s1.citations } := by
  obtain ⟨h1, h2, h3, h4⟩ := h
  cases s1; cases s2
  simp_all

theorem applyDelta_sameText (model : String) {s1 s2 : AssemblyState}
    (h : sameText s1 s2) (d? : Option Delta) :
    sameText (applyDelta model s1 d?) (applyDelta model s2 d?) := by
  rw [sameText_eq_update h, applyDelta_citations_swap]
  exact ⟨rfl, rfl, rfl, rfl⟩

theorem processChunk_sameText (model : String) {s1 s2 : AssemblyState}
    (h : sameText s1 s2) (c : Chunk) :
    sameText (processChunk model s1 { c with citations? := none })
      (processChunk model s2 c) := by
  rw [show processChunk model s1 { c with citations? := none }
      = applyDelta model s1 (chunkDelta c) from rfl]
  show sameText (applyDelta model s1 (chunkDelta c))
    (applyDelta model (applyCitations s2 c.citations?) (chunkDelta c))
  apply applyDelta_sameText
  cases hc : c.citations? with
  | none => exact h
  | some l =>
    obtain ⟨h1, h2, h3, h4⟩ := h
    exact ⟨h1, h2, h3, h4⟩

theorem processEvents_sameText (model : String) :
    ∀ (evs : List RawEvent) {s1 s2 : AssemblyState}, sameText s1 s2 →
      sameText (processEvents model s1 (evs.map stripCitations))
        (processEvents model s2 evs) := by
  intro evs
  induction evs with
  | nil => intro s1 s2 h; exact h
  | cons e evs ih =>
    intro s1 s2 h
    cases e with
    | done => exact h
    | malformed => exact h
    | chunk c =>
      simp only [List.map_cons, stripCitations, processEvents]
      exact ih (processChunk_sameText model h c)

/-! Joining fragment lists. -/

theorem strJoin_data_mem {L : List String} {ch : Char}
    (h : ch ∈ (strJoin L).data) : ∃ s ∈ L, ch ∈ s.data := by
  induction L with
  | nil => simp [strJoin] at h
  | cons s L ih =>
    rw [show strJoin (s :: L) = s ++ strJoin L from rfl, String.data_append] at h
    rcases List.mem_append.mp h with h1 | h1
    · exact ⟨s, by simp, h1⟩
    · obtain ⟨s', hs', hc'⟩ := ih h1
      exact ⟨s', by simp [hs'], hc'⟩

theorem strJoin_cons_ne {s : String} (hs : s ≠ "") (L : List String) :
    (strJoin (s :: L)).data ≠ [] := by
  intro h
  rw [show strJoin (s :: L) = s ++ strJoin L from rfl, String.data_append] at h
  have hs' : s.data = [] := (List.append_eq_nil.mp h).1
  exact hs (stringExt hs')

/-! The claims. -/

/-- C2: for a content-only stream (no reasoning fragments), the
assembled message content is the plain concatenation of the fragment
texts in arrival order, and the `[DONE]` sentinel stops processing
immediately without being treated as data; in particular the stream
`[{delta:{content:"Hello"}}, {delta:{content:" world"}}, "[DONE]"]`
yields exactly `"Hello world"`. -/
theorem claim2_content_only (model : String) (hm : hasReasonModelMarker model = false)
    (cs : List String) :
    (process_stream_response model (cs.map contentEvent ++ [RawEvent.done])).content
      = strJoin cs ∧
    (∀ (st : AssemblyState) (rest : List RawEvent),
      processEvents model st (RawEvent.done :: rest) = st) ∧
    (process_stream_response model
      [contentEvent "Hello", contentEvent " world", RawEvent.done]).content
      = "Hello world" := by
  have h1 : ∀ cs' : List String,
      (process_stream_response model (cs'.map contentEvent ++ [RawEvent.done])).content
        = strJoin cs' := by
    intro cs'
    unfold process_stream_response
    rw [run_content model hm cs' initState [RawEvent.done] rfl]
    rw [show (finalize (processEvents model
        { initState with reply := initState.reply ++ strJoin cs' }
        [RawEvent.done])).content = "" ++ strJoin cs' from rfl]
    exact String.empty_append _
  refine ⟨h1 cs, fun st rest => rfl, ?_⟩
  have h2 := h1 ["Hello", " world"]
  rw [show (["Hello", " world"].map contentEvent ++ [RawEvent.done] : List RawEvent)
      = [contentEvent "Hello", contentEvent " world", RawEvent.done] from rfl] at h2
  rw [h2]
  rfl

theorem claim2_content_only_witness :
    hasReasonModelMarker "gpt-4o" = false ∧
    ((process_stream_response "gpt-4o"
        (["ab"].map contentEvent ++ [RawEvent.done])).content = strJoin ["ab"] ∧
      (∀ (st : AssemblyState) (rest : List RawEvent),
        processEvents "gpt-4o" st (RawEvent.done :: rest) = st) ∧
      (process_stream_response "gpt-4o"
        [contentEvent "Hello", contentEvent " world", RawEvent.done]).content
        = "Hello world") :=
  ⟨by decide, claim2_content_only "gpt-4o" (by decide) ["ab"]⟩

/-- C3 counterexample: with the stream
`[{delta:{content:"A"}}, <malformed JSON>, {delta:{content:"B"}}, "[DONE]"]`
the code yields content `"A"`, not `"AB"` as the claim states: the
malformed frame raises out of the event loop and aborts processing of
the remaining frames rather than being skipped. -/
theorem claim3_counterexample :
    (process_stream_response "gpt-3.5-turbo"
      [contentEvent "A", RawEvent.malformed, contentEvent "B",
        RawEvent.done]).content = "A" ∧
    (process_stream_response "gpt-3.5-turbo"
      [contentEvent "A", RawEvent.malformed, contentEvent "B",
        RawEvent.done]).content ≠ "AB" := by
  decide

/-- C3 amended: a malformed (non-JSON, non-sentinel) frame raises a
decode error that aborts processing of the remaining frames; the error
is reported and finalization still returns the content accumulated
before the malformed frame, so the example stream yields `"A"`. -/
theorem claim3_amended :
    (∀ (model : String) (st : AssemblyState) (rest : List RawEvent),
      processEvents model st (RawEvent.malformed :: rest) = st) ∧
    (process_stream_response "gpt-3.5-turbo"
      [contentEvent "A", RawEvent.malformed, contentEvent "B",
        RawEvent.done]).content = "A" :=
  ⟨fun _ _ _ => rfl, by decide⟩

/-- C4 counterexample: interrupting after a single reasoning fragment
leaves accumulated thinking text in the buffer, yet the finalized
message content is empty — thinking text accumulated before any content
fragment is discarded, contradicting the claim's parenthetical. -/
theorem claim4_counterexample :
    (processEvents "gpt-3.5-turbo" initState [reasoningEvent "R1"]).thinking_content
      = "> Thought Process:\n```thinking\nR1" ∧
    (finalize (processEvents "gpt-3.5-turbo" initState
      [reasoningEvent "R1"])).content = "" := by
  decide

/-- C4 amended: on any finalize path (truncation by cancellation or a
transport error, abort on a malformed frame, or the `[DONE]` sentinel),
the returned message content is exactly the accumulated reply buffer,
which extends the reply present at any earlier point — it is never
discarded.  Thinking text is part of that buffer only once the first
content fragment has flushed it. -/
theorem claim4_amended (model : String) (st : AssemblyState) (evs : List RawEvent) :
    (finalize (processEvents model st evs)).content
      = (processEvents model st evs).reply ∧
    (∃ t, (processEvents model st evs).reply = st.reply ++ t) ∧
    (∀ rest, processEvents model st (RawEvent.done :: rest) = st) ∧
    (∀ rest, processEvents model st (RawEvent.malformed :: rest) = st) :=
  ⟨rfl, processEvents_reply_extend model evs st, fun _ => rfl, fun _ => rfl⟩

/-- C5 counterexample: with `thinking_blocks` present and non-empty but
containing no block of type "thinking", and a provider path carrying a
non-empty text, the claimed extraction (first path yielding a non-empty
value) returns that text while the code returns nothing: the `elif`
chain commits to `thinking_blocks` and never consults the provider
path. -/
theorem claim5_counterexample :
    extractReasoning
      { thinking_blocks? := some [{ type? := some "text" }],
        provider_specific_fields? :=
          some { reasoningContent? := some { text? := some "X" } } } = none ∧
    extractReasoningClaim
      { thinking_blocks? := some [{ type? := some "text" }],
        provider_specific_fields? :=
          some { reasoningContent? := some { text? := some "X" } } } = some "X" ∧
    extractReasoning
      { thinking_blocks? := some [{ type? := some "text" }],
        provider_specific_fields? :=
          some { reasoningContent? := some { text? := some "X" } } }
      ≠ extractReasoningClaim
      { thinking_blocks? := some [{ type? := some "text" }],
        provider_specific_fields? :=
          some { reasoningContent? := some { text? := some "X" } } } := by
  decide

/-- C5 amended: the three paths are checked in priority order and never
merged; the direct field is used only when non-empty, but when
`thinking_blocks` is present and non-empty the extractor commits to the
block search and the provider path is not consulted even if that search
yields nothing. -/
theorem claim5_amended :
    (∀ d : Delta, extractReasoning d = extractReasoningAmended d) ∧
    (∀ d : Delta, extractReasoning d = none
      ∨ extractReasoning d = d.reasoning_content?
      ∨ extractReasoning d = findThinkingBlock (d.thinking_blocks?.getD [])
      ∨ extractReasoning d = providerText d.provider_specific_fields?) := by
  constructor
  · intro d
    unfold extractReasoning extractReasoningAmended
    cases hrc : d.reasoning_content? with
    | none =>
      cases htb : d.thinking_blocks? with
      | none => simp [optTruthy, optListTruthy]
      | some bs =>
        cases bs with
        | nil => simp [optTruthy, optListTruthy]
        | cons b bs' => simp [optTruthy, optListTruthy]
    | some s =>
      by_cases hs : s = ""
      · subst hs
        cases htb : d.thinking_blocks? with
        | none => simp [optTruthy, optListTruthy]
        | some bs =>
          cases bs with
          | nil => simp [optTruthy, optListTruthy]
          | cons b bs' => simp [optTruthy, optListTruthy]
      · simp [optTruthy_some hs, hs]
  · intro d
    unfold extractReasoning
    by_cases h1 : optTruthy d.reasoning_content? = true
    · right; left; simp [h1]
    · by_cases h2 : optListTruthy d.thinking_blocks? = true
      · right; right; left
        simp [h1, h2]
      · by_cases h3 : providerHasReasoning d.provider_specific_fields? = true
        · right; right; right
          simp [h1, h2, h3]
        · left
          simp [h1, h2, h3]

/-- C6: once the thinking section has been closed by the first content
fragment (`is_thinking_complete` true), the thinking buffer is never
modified again for the rest of the stream, the flag stays set, and the
reply buffer only grows by appending. -/
theorem claim6_frozen (model : String) (st : AssemblyState)
    (h : st.is_thinking_complete = true) (evs : List RawEvent) :
    (processEvents model st evs).thinking_content = st.thinking_content ∧
    (processEvents model st evs).is_thinking_complete = true ∧
    ∃ t, (processEvents model st evs).reply = st.reply ++ t := by
  have h1 := processEvents_frozen model evs st h
  exact ⟨h1.1, h1.2, processEvents_reply_extend model evs st⟩

theorem claim6_frozen_witness :
    (⟨"r", none, "tc", false, true⟩ : AssemblyState).is_thinking_complete = true ∧
    ((processEvents "gpt-4o" ⟨"r", none, "tc", false, true⟩
        [reasoningEvent "x", contentEvent "y"]).thinking_content
      = (⟨"r", none, "tc", false, true⟩ : AssemblyState).thinking_content ∧
    (processEvents "gpt-4o" ⟨"r", none, "tc", false, true⟩
        [reasoningEvent "x", contentEvent "y"]).is_thinking_complete = true ∧
    ∃ t, (processEvents "gpt-4o" ⟨"r", none, "tc", false, true⟩
        [reasoningEvent "x", contentEvent "y"]).reply
      = (⟨"r", none, "tc", false, true⟩ : AssemblyState).reply ++ t) :=
  ⟨rfl, claim6_frozen "gpt-4o" ⟨"r", none, "tc", false, true⟩ rfl
    [reasoningEvent "x", contentEvent "y"]⟩

/-- C7: an arriving citation list replaces the stored list outright,
whatever was stored before, and the citation-inclusive rendered snapshot
is built from the stored (latest) list only. -/
theorem claim7_citations_replace (model : String) (st : AssemblyState) (c : Chunk)
    (l : List String) (hc : c.citations? = some l) :
    (processChunk model st c).citations = some l ∧
    (∀ st' : AssemblyState, st'.citations = some l → l ≠ [] →
      renderSnapshot st' = st'.reply ++ format_citations l) := by
  constructor
  · unfold processChunk
    rw [applyDelta_citations, hc]
    rfl
  · intro st' h1 h2
    have hl : l.isEmpty = false := by
      cases l with
      | nil => exact absurd rfl h2
      | cons a l' => rfl
    simp [renderSnapshot, h1, hl]

theorem claim7_citations_replace_witness :
    (citationsChunk ["new"]).citations? = some ["new"] ∧
    ((processChunk "gpt-4o" ⟨"rep", some ["old"], "", false, false⟩
        (citationsChunk ["new"])).citations = some ["new"] ∧
    (∀ st' : AssemblyState, st'.citations = some ["new"] → ["new"] ≠ [] →
      renderSnapshot st' = st'.reply ++ format_citations ["new"])) :=
  ⟨rfl, claim7_citations_replace "gpt-4o" ⟨"rep", some ["old"], "", false, false⟩
    (citationsChunk ["new"]) ["new"] rfl⟩

/-- C8: the persisted message content is exactly the reply buffer, and
it is unchanged when every citation field is stripped from the stream —
citations affect only the rendered snapshot, never the content handed to
the conversation store. -/
theorem claim8_citations_rendering_only (model : String) (evs : List RawEvent) :
    (process_stream_response model evs).content
      = (processEvents model initState evs).reply ∧
    (process_stream_response model (evs.map stripCitations)).content
      = (process_stream_response model evs).content ∧
    (∀ (st : AssemblyState) (l : List String), st.citations = some l → l ≠ [] →
      renderSnapshot st = st.reply ++ format_citations l) := by
  refine ⟨rfl, ?_, ?_⟩
  · exact (processEvents_sameText model evs (sameText_refl initState)).1
  · intro st l h1 h2
    have hl : l.isEmpty = false := by
      cases l with
      | nil => exact absurd rfl h2
      | cons a l' => rfl
    simp [renderSnapshot, h1, hl]

/-- C9 counterexample: the close tag is rewritten into
`"\n```\n\n> AI Response:  \n\n"`, which is not the footer plus the
response separator the assembler inserts on the structured path
(`"\n```\n\n" ++ "\n> AI Response:  \n\n"` — one newline more), so an
inline-tagged content stream and the corresponding structured stream
assemble different contents. -/
theorem claim9_counterexample :
    rewriteThinkTags "deepseek-r1" "</think>" = "\n```\n\n> AI Response:  \n\n" ∧
    rewriteThinkTags "deepseek-r1" "</think>"
      ≠ "\n```\n\n" ++ "\n> AI Response:  \n\n" ∧
    (process_stream_response "deepseek-r1"
        [contentEvent "<think>X</think>Y", RawEvent.done]).content
      ≠ (process_stream_response "deepseek-r1"
          [reasoningEvent "X", contentEvent "Y", RawEvent.done]).content := by
  decide

/-- C9 amended: for marker models the open tag is rewritten into the
same thinking-header delimiter the assembler uses, and the close tag
into the thinking footer followed by the AI-Response separator without
the separator's leading newline (one newline fewer than the structured
path inserts); fragments of models without the marker pass through
unchanged. -/
theorem claim9_amended (model : String) (hm : hasReasonModelMarker model = true)
    (b : String) (hb : ∀ c ∈ b.data, c ≠ '<') :
    rewriteThinkTags model ("<think>" ++ b ++ "</think>")
      = "> Thought Process:\n```thinking\n"
          ++ (b ++ "\n```\n\n> AI Response:  \n\n") ∧
    ("\n```\n\n> AI Response:  \n\n" : String)
      ≠ "\n```\n\n" ++ "\n> AI Response:  \n\n" ∧
    (∀ (m s : String), hasReasonModelMarker m = false →
      rewriteThinkTags m s = s) :=
  ⟨rewriteThinkTags_marker model hm b hb, by decide,
    fun m s hm' => rewriteThinkTags_plain m hm' s⟩

theorem claim9_amended_witness :
    hasReasonModelMarker "deepseek-r1" = true ∧
    (∀ c ∈ ("X" : String).data, c ≠ '<') ∧
    (rewriteThinkTags "deepseek-r1" ("<think>" ++ "X" ++ "</think>")
      = "> Thought Process:\n```thinking\n"
          ++ ("X" ++ "\n```\n\n> AI Response:  \n\n") ∧
    ("\n```\n\n> AI Response:  \n\n" : String)
      ≠ "\n```\n\n" ++ "\n> AI Response:  \n\n" ∧
    (∀ (m s : String), hasReasonModelMarker m = false →
      rewriteThinkTags m s = s)) :=
  ⟨by decide, by decide, claim9_amended "deepseek-r1" (by decide) "X" (by decide)⟩

/-- C10: when one event carries both a reasoning and a content fragment,
the reasoning is applied first within that fold step — it is appended to
the still-open thinking buffer, which the content fragment then closes —
so the reasoning text ends up inside the closed thinking block, before
the response separator, rather than being dropped or misplaced. -/
theorem claim10_both_in_one_event (model : String) (st : AssemblyState)
    (r c : String) (hm : hasReasonModelMarker model = false)
    (hr : r ≠ "") (hc : c ≠ "") (hco : st.is_thinking_complete = false) :
    processChunk model st (bothChunk r c)
      = { st with
          is_thinking_mode := false,
          is_thinking_complete := true,
          thinking_content :=
            (if st.is_thinking_mode then st.thinking_content
             else "> Thought Process:\n```thinking\n") ++ r ++ "\n```\n\n",
          reply := st.reply
            ++ ((if st.is_thinking_mode then st.thinking_content
                 else "> Thought Process:\n```thinking\n") ++ r ++ "\n```\n\n")
            ++ "\n> AI Response:  \n\n" ++ c } := by
  by_cases hmo : st.is_thinking_mode = true
  · simp [processChunk, bothChunk, chunkDelta, applyCitations, applyDelta,
      appendContent, appendReasoning, openThinking, closeThinking,
      extractReasoning_direct hr, optTruthy_some hr, optTruthy_some hc,
      optTruthy_none, hmo, hco, rewriteThinkTags_plain model hm,
      String.append_assoc]
  · have hmo' : st.is_thinking_mode = false := by
      cases hb : st.is_thinking_mode with
      | true => exact absurd hb hmo
      | false => rfl
    simp [processChunk, bothChunk, chunkDelta, applyCitations, applyDelta,
      appendContent, appendReasoning, openThinking, closeThinking,
      extractReasoning_direct hr, optTruthy_some hr, optTruthy_some hc,
      optTruthy_none, hmo', hco, rewriteThinkTags_plain model hm,
      String.append_assoc]

theorem claim10_both_in_one_event_witness :
    hasReasonModelMarker "gpt-4o" = false ∧ ("R" : String) ≠ "" ∧ ("C" : String) ≠ "" ∧
    initState.is_thinking_complete = false ∧
    processChunk "gpt-4o" initState (bothChunk "R" "C")
      = { initState with
          is_thinking_mode := false,
          is_thinking_complete := true,
          thinking_content :=
            (if initState.is_thinking_mode then initState.thinking_content
             else "> Thought Process:\n```thinking\n") ++ "R" ++ "\n```\n\n",
          reply := initState.reply
            ++ ((if initState.is_thinking_mode then initState.thinking_content
                 else "> Thought Process:\n```thinking\n") ++ "R" ++ "\n```\n\n")
            ++ "\n> AI Response:  \n\n" ++ "C" } :=
  ⟨by decide, by decide, by decide, rfl,
    claim10_both_in_one_event "gpt-4o" initState "R" "C" (by decide)
      (by decide) (by decide) rfl⟩

/-- C1: for a stream of one or more reasoning fragments followed by one
or more content fragments (fragments free of the marker characters), the
assembled content contains the thinking header marker exactly once and
the thinking footer/response separator exactly once; a reasoning
fragment arriving after the first content fragment is dropped, so
[R1, R2, C1] and [R1, C1, R2] assemble differently and in the second
case the content does not contain R2's text. -/
theorem claim1_thinking_markers (model : String)
    (hm : hasReasonModelMarker model = false)
    (r0 c0 : String) (rs cs : List String)
    (hr0 : r0 ≠ "") (hc0 : c0 ≠ "") (hrs : ∀ r ∈ rs, r ≠ "")
    (hcleanR : ∀ s ∈ r0 :: rs, ∀ ch ∈ s.data, ch ≠ '\n' ∧ ch ≠ '`' ∧ ch ≠ '>')
    (hcleanC : ∀ s ∈ c0 :: cs, ∀ ch ∈ s.data, ch ≠ '\n' ∧ ch ≠ '`' ∧ ch ≠ '>') :
    countOccStr "> Thought Process:\n```thinking\n"
      (process_stream_response model
        ((r0 :: rs).map reasoningEvent ++ (c0 :: cs).map contentEvent
          ++ [RawEvent.done])).content = 1 ∧
    countOccStr ("\n```\n\n" ++ "\n> AI Response:  \n\n")
      (process_stream_response model
        ((r0 :: rs).map reasoningEvent ++ (c0 :: cs).map contentEvent
          ++ [RawEvent.done])).content = 1 ∧
    (process_stream_response model
        [reasoningEvent "r1", reasoningEvent "r2", contentEvent "c1",
          RawEvent.done]).content
      ≠ (process_stream_response model
          [reasoningEvent "r1", contentEvent "c1", reasoningEvent "r2",
            RawEvent.done]).content ∧
    listContainsSub ("r2" : String).data
      (process_stream_response model
        [reasoningEvent "r1", contentEvent "c1", reasoningEvent "r2",
          RawEvent.done]).content.data = false := by
  have hcontent : (process_stream_response model
      ((r0 :: rs).map reasoningEvent ++ (c0 :: cs).map contentEvent
        ++ [RawEvent.done])).content
      = "> Thought Process:\n```thinking\n" ++ strJoin (r0 :: rs)
          ++ "\n```\n\n" ++ "\n> AI Response:  \n\n" ++ strJoin (c0 :: cs) := by
    unfold process_stream_response
    rw [assembled_structured model hm r0 c0 rs cs hr0 hc0 hrs]
    rfl
  have hRmem : ∀ ch ∈ (strJoin (r0 :: rs)).data,
      ch ≠ '\n' ∧ ch ≠ '`' ∧ ch ≠ '>' := by
    intro ch hch
    obtain ⟨s, hs, hc'⟩ := strJoin_data_mem hch
    exact hcleanR s hs ch hc'
  have hCmem : ∀ ch ∈ (strJoin (c0 :: cs)).data,
      ch ≠ '\n' ∧ ch ≠ '`' ∧ ch ≠ '>' := by
    intro ch hch
    obtain ⟨s, hs, hc'⟩ := strJoin_data_mem hch
    exact hcleanC s hs ch hc'
  have hc1 : (process_stream_response model
      [reasoningEvent "r1", reasoningEvent "r2", contentEvent "c1",
        RawEvent.done]).content
      = "> Thought Process:\n```thinking\n" ++ strJoin ("r1" :: ["r2"])
          ++ "\n```\n\n" ++ "\n> AI Response:  \n\n" ++ strJoin ["c1"] := by
    unfold process_stream_response
    rw [show ([reasoningEvent "r1", reasoningEvent "r2", contentEvent "c1",
        RawEvent.done] : List RawEvent)
        = ("r1" :: ["r2"]).map reasoningEvent
          ++ ("c1" :: ([] : List String)).map contentEvent
          ++ [RawEvent.done] from rfl]
    rw [assembled_structured model hm "r1" "c1" ["r2"] [] (by decide) (by decide)
      (by decide)]
    rfl
  have hc2 : (process_stream_response model
      [reasoningEvent "r1", contentEvent "c1", reasoningEvent "r2",
        RawEvent.done]).content
      = "" ++ (("> Thought Process:\n```thinking\n" ++ "r1") ++ "\n```\n\n")
          ++ "\n> AI Response:  \n\n" ++ "c1" := by
    unfold process_stream_response
    show (finalize (processEvents model
        (processChunk model initState (reasoningChunk "r1"))
        [contentEvent "c1", reasoningEvent "r2", RawEvent.done])).content = _
    rw [processChunk_reasoning_open model initState (by decide) rfl rfl]
    show (finalize (processEvents model
        (processChunk model
          (⟨"", none, "> Thought Process:\n```thinking\n" ++ "r1", true, false⟩
            : AssemblyState)
          (contentChunk "c1"))
        [reasoningEvent "r2", RawEvent.done])).content = _
    rw [processChunk_content_close model
        (⟨"", none, "> Thought Process:\n```thinking\n" ++ "r1", true, false⟩
          : AssemblyState) (by decide) hm rfl rfl]
    show (finalize (processEvents model
        (processChunk model
          (⟨"" ++ (("> Thought Process:\n```thinking\n" ++ "r1") ++ "\n```\n\n")
              ++ "\n> AI Response:  \n\n" ++ "c1", none,
            ("> Thought Process:\n```thinking\n" ++ "r1") ++ "\n```\n\n",
            false, true⟩ : AssemblyState)
          (reasoningChunk "r2"))
        [RawEvent.done])).content = _
    rw [processChunk_reasoning_late model
        (⟨"" ++ (("> Thought Process:\n```thinking\n" ++ "r1") ++ "\n```\n\n")
            ++ "\n> AI Response:  \n\n" ++ "c1", none,
          ("> Thought Process:\n```thinking\n" ++ "r1") ++ "\n```\n\n",
          false, true⟩ : AssemblyState) "r2" rfl]
    rfl
  refine ⟨?_, ?_, ?_, ?_⟩
  · rw [hcontent]
    unfold countOccStr
    rw [String.data_append ("> Thought Process:\n```thinking\n"
        ++ strJoin (r0 :: rs) ++ "\n```\n\n" ++ "\n> AI Response:  \n\n")
      (strJoin (c0 :: cs))]
    rw [String.data_append ("> Thought Process:\n```thinking\n"
        ++ strJoin (r0 :: rs) ++ "\n```\n\n") "\n> AI Response:  \n\n"]
    rw [String.data_append ("> Thought Process:\n```thinking\n"
        ++ strJoin (r0 :: rs)) "\n```\n\n"]
    rw [String.data_append "> Thought Process:\n```thinking\n"
      (strJoin (r0 :: rs))]
    rw [List.append_assoc, List.append_assoc, List.append_assoc]
    exact countOcc_header_once (strJoin (r0 :: rs)).data (strJoin (c0 :: cs)).data
      (fun ch hch => (hRmem ch hch).2.2) (fun ch hch => (hCmem ch hch).2.2)
  · rw [hcontent]
    unfold countOccStr
    rw [String.data_append "\n```\n\n" "\n> AI Response:  \n\n"]
    rw [String.data_append ("> Thought Process:\n```thinking\n"
        ++ strJoin (r0 :: rs) ++ "\n```\n\n" ++ "\n> AI Response:  \n\n")
      (strJoin (c0 :: cs))]
    rw [String.data_append ("> Thought Process:\n```thinking\n"
        ++ strJoin (r0 :: rs) ++ "\n```\n\n") "\n> AI Response:  \n\n"]
    rw [String.data_append ("> Thought Process:\n```thinking\n"
        ++ strJoin (r0 :: rs)) "\n```\n\n"]
    rw [String.data_append "> Thought Process:\n```thinking\n"
      (strJoin (r0 :: rs))]
    rw [List.append_assoc, List.append_assoc, List.append_assoc]
    exact countOcc_footer_once (strJoin (r0 :: rs)).data (strJoin (c0 :: cs)).data
      (fun ch hch => ⟨(hRmem ch hch).1, (hRmem ch hch).2.1⟩)
      (fun ch hch => ⟨(hCmem ch hch).1, (hCmem ch hch).2.1⟩)
      (strJoin_cons_ne hr0 rs) (strJoin_cons_ne hc0 cs)
  · rw [hc1, hc2]
    decide
  · rw [hc2]
    decide

theorem claim1_thinking_markers_witness :
    hasReasonModelMarker "gpt-4o" = false ∧
    ("R1" : String) ≠ "" ∧ ("C1" : String) ≠ "" ∧
    (∀ r ∈ ([] : List String), r ≠ "") ∧
    (∀ s ∈ ["R1"], ∀ ch ∈ s.data, ch ≠ '\n' ∧ ch ≠ '`' ∧ ch ≠ '>') ∧
    (∀ s ∈ ["C1"], ∀ ch ∈ s.data, ch ≠ '\n' ∧ ch ≠ '`' ∧ ch ≠ '>') ∧
    (countOccStr "> Thought Process:\n```thinking\n"
      (process_stream_response "gpt-4o"
        (("R1" :: ([] : List String)).map reasoningEvent
          ++ ("C1" :: ([] : List String)).map contentEvent
          ++ [RawEvent.done])).content = 1 ∧
    countOccStr ("\n```\n\n" ++ "\n> AI Response:  \n\n")
      (process_stream_response "gpt-4o"
        (("R1" :: ([] : List String)).map reasoningEvent
          ++ ("C1" :: ([] : List String)).map contentEvent
          ++ [RawEvent.done])).content = 1 ∧
    (process_stream_response "gpt-4o"
        [reasoningEvent "r1", reasoningEvent "r2", contentEvent "c1",
          RawEvent.done]).content
      ≠ (process_stream_response "gpt-4o"
          [reasoningEvent "r1", contentEvent "c1", reasoningEvent "r2",
            RawEvent.done]).content ∧
    listContainsSub ("r2" : String).data
      (process_stream_response "gpt-4o"
        [reasoningEvent "r1", contentEvent "c1", reasoningEvent "r2",
          RawEvent.done]).content.data = false) :=
  ⟨by decide, by decide, by decide, by decide, by decide, by decide,
    claim1_thinking_markers "gpt-4o" (by decide) "R1" "C1" [] []
      (by decide) (by decide) (by decide) (by decide) (by decide)⟩

end GptTerm
